import Mathlib

/-!
Verification development for the `serverlib_scripts/serverlib_core` annotation
pipeline (`L3_process_and_register.py`).

Text is modelled as `List Char`.  The three regular expressions of the scanner
are translated into direct character-scanning functions.  Each Python regex
used by the code admits a deterministic maximal-munch reading (every `\s*`,
`\s+`, `[^)]*` and `\w+` run is followed by a required literal character that
cannot itself belong to the run, so greedy matching never has to backtrack
into a run), which is what the functions below implement.  `search` semantics
(leftmost match) are modelled by trying every start position from the left.
-/

/-- Python `\s` / `str.strip()` whitespace (ASCII fragment). -/
def isPySpace (c : Char) : Bool :=
  c = ' ' || c = '\t' || c = '\n' || c = '\r' || c = '\x0b' || c = '\x0c'

/-- Python `\w` word character (ASCII fragment). -/
def isWordChar (c : Char) : Bool :=
  c.isAlphanum || c = '_'

/-- Python `str.strip()`: drop whitespace from both ends. -/
def pstrip (s : List Char) : List Char :=
  ((s.dropWhile isPySpace).reverse.dropWhile isPySpace).reverse

/-- Match a literal character sequence at the head, returning the rest. -/
def lit : List Char → List Char → Option (List Char)
  | [], s => some s
  | _ :: _, [] => none
  | p :: ps, c :: cs => if c = p then lit (p :: ps).tail cs else none

/-- Try a Boolean matcher at every start position (Python `re.search`). -/
def searchBool (f : List Char → Bool) : List Char → Bool
  | [] => f []
  | s@(_ :: rest) => f s || searchBool f rest

/-- Try an Option-valued matcher at every start position, leftmost first. -/
def searchOpt {α : Type} (f : List Char → Option α) : List Char → Option α
  | [] => f []
  | s@(_ :: rest) => (f s).orElse fun _ => searchOpt f rest

/-- Matcher for `/\*--\s*@ServerImpl\s*\([^)]*\)\s*--\*/` anchored at the
current position (`server_impl_processed_pattern` of the source). -/
def processedAt (s : List Char) : Bool :=
  match lit ['/', '*', '-', '-'] s with
  | none => false
  | some s₁ =>
    match lit "@ServerImpl".toList (s₁.dropWhile isPySpace) with
    | none => false
    | some s₂ =>
      match lit ['('] (s₂.dropWhile isPySpace) with
      | none => false
      | some s₃ =>
        match lit [')'] (s₃.dropWhile (· ≠ ')')) with
        | none => false
        | some s₄ => (lit ['-', '-', '*', '/'] (s₄.dropWhile isPySpace)).isSome

/-- `server_impl_processed_pattern.search`. -/
def processedSearch (s : List Char) : Bool :=
  searchBool processedAt s

/-- Matcher for `(\s*)/\*\s*@ServerImpl\s*\(([^)]*)\)\s*\*/` anchored at the
current position, returning groups 1 (leading whitespace) and 2 (payload)
(`server_impl_annotation_pattern` of the source). -/
def annotationAt (s : List Char) : Option (List Char × List Char) :=
  let ind := s.takeWhile isPySpace
  match lit ['/', '*'] (s.dropWhile isPySpace) with
  | none => none
  | some s₁ =>
    match lit "@ServerImpl".toList (s₁.dropWhile isPySpace) with
    | none => none
    | some s₂ =>
      match lit ['('] (s₂.dropWhile isPySpace) with
      | none => none
      | some s₃ =>
        let pay := s₃.takeWhile (· ≠ ')')
        match lit [')'] (s₃.dropWhile (· ≠ ')')) with
        | none => none
        | some s₄ =>
          match lit ['*', '/'] (s₄.dropWhile isPySpace) with
          | none => none
          | some _ => some (ind, pay)

/-- `server_impl_annotation_pattern.search`: leftmost match, with groups. -/
def annotationSearch (s : List Char) : Option (List Char × List Char) :=
  searchOpt annotationAt s

/-- Continuation `\s*:\s*public\s+IServer` of the class pattern. -/
def classTail (u : List Char) : Bool :=
  match lit [':'] (u.dropWhile isPySpace) with
  | none => false
  | some u₁ =>
    match lit "public".toList (u₁.dropWhile isPySpace) with
    | none => false
    | some u₂ =>
      match u₂.head? with
      | some e =>
        isPySpace e && (lit "IServer".toList (u₂.dropWhile isPySpace)).isSome
      | none => false

/-- Matcher for `class\s+(\w+)(?:\s+final)?\s*:\s*public\s+IServer` anchored
at the current position, returning group 1 (`class_pattern` of the source).
The optional `(?:\s+final)?` group is tried greedily first, falling back to
the empty alternative, exactly as the regex engine does. -/
def classAt (s : List Char) : Option (List Char) :=
  match lit "class".toList s with
  | none => none
  | some s₁ =>
    match s₁.head? with
    | none => none
    | some c =>
      if isPySpace c then
        let s₂ := s₁.dropWhile isPySpace
        let name := s₂.takeWhile isWordChar
        let s₃ := s₂.dropWhile isWordChar
        if name = [] then none
        else
          let withFinal : Option (List Char) :=
            match s₃.head? with
            | some d =>
              if isPySpace d then lit "final".toList (s₃.dropWhile isPySpace)
              else none
            | none => none
          match withFinal with
          | some u => if classTail u then some name
                      else if classTail s₃ then some name else none
          | none => if classTail s₃ then some name else none
      else none

/-- `class_pattern.search`, returning the captured class name. -/
def classSearch (s : List Char) : Option (List Char) :=
  searchOpt classAt s

example : processedSearch "/*--@ServerImpl(\"abc\")--*/".toList = true := by decide
example : processedSearch "  /*-- @ServerImpl( x ) --*/ ".toList = true := by decide
example : processedSearch "/* @ServerImpl(\"abc\") */".toList = false := by decide
example : annotationSearch "/* @ServerImpl(\"abc\") */".toList =
    some ([], "\"abc\"".toList) := by decide
example : annotationSearch "/*@ServerImpl(x)*/".toList = some ([], "x".toList) := by
  decide
example : annotationSearch "int q; /* @ServerImpl(a) */".toList =
    some ([' '], "a".toList) := by decide
example : annotationSearch "/*--@ServerImpl(\"abc\")--*/".toList = none := by decide
example : classSearch "class Door : public IServer \x7b".toList =
    some "Door".toList := by decide
example : classSearch "class Door final : public IServer \x7b".toList =
    some "Door".toList := by decide
example : classSearch "class Door : public Window".toList = none := by decide
example : classSearch "  class Door:public IServer".toList =
    some "Door".toList := by decide
example : pstrip "  /* x */\n".toList = "/* x */".toList := by decide

/-! ## The scanner: `check_and_comment_server_impl`

File I/O is abstracted away: the function below takes the list of lines read
from the file and returns the triple (`matches`, `modified_lines`,
`modified`).  The source writes `modified_lines` back to the file exactly
when `modified` is `true`, so "performs a write" is modelled by the Boolean.
The `found` flag of the source is `matches ≠ []`; the `file_path` field of a
match (an absolute path produced by `Path.resolve()`) is filesystem state and
is omitted from `MatchInfo`. -/

structure MatchInfo where
  line_number : Nat
  class_name : List Char
  server_impl_content : List Char
deriving DecidableEq

/-- `extract_bracket_content`: strip whitespace, then strip one pair of
matching single or double quotes if present. -/
def extract_bracket_content (content : List Char) : List Char :=
  if content = [] then []
  else
    let c := pstrip content
    if (c.head? = some '"' && c.getLast? = some '"') ||
       (c.head? = some '\'' && c.getLast? = some '\'') then
      (c.drop 1).dropLast
    else c

/-- The processed replacement line
`f"\x7bindent\x7d/*--@ServerImpl(\x7bcontent_part\x7d)--*/\n"`. -/
def procOpen : List Char := "/*--@ServerImpl(".toList

/-- Closing delimiter of the processed marker. -/
def procClose : List Char := ")--*/".toList

/-- Body of the processed marker line, without indentation and newline. -/
def coreOf (pay : List Char) : List Char :=
  procOpen ++ pay ++ procClose

/-- The full processed marker line written into `modified_lines`. -/
def processedLineOf (ind pay : List Char) : List Char :=
  ind ++ coreOf pay ++ ['\n']

/-- Python `range a b` as a list. -/
def pyRange (a b : Nat) : List Nat := List.range' a (b - a)

/-- The `for j in ...: if class_match: break` lookahead body. -/
def findClassIn (lines : List (List Char)) : List Nat → Option (List Char)
  | [] => none
  | j :: js =>
    match classSearch (lines.getD j []) with
    | some n => some n
    | none => findClassIn lines js

/-- Lookahead `for j in range(i + 1, min(i + 6, len(lines)))` searching for a
class that inherits from `IServer`. -/
def lookahead (lines : List (List Char)) (i : Nat) : Option (List Char) :=
  findClassIn lines (pyRange (i + 1) (min (i + 6) lines.length))

/-- The per-line loop of `check_and_comment_server_impl`, traversing `rest`
(the lines from index `i` on) while the lookahead reads the full original
line list `all`, exactly as the Python loop indexes `lines[j]`.  Returns
(`matches`, `modified_lines`, `modified`) for the traversed part. -/
def scanLines (all : List (List Char)) :
    Nat → List (List Char) → List MatchInfo × List (List Char) × Bool
  | _, [] => ([], [], false)
  | i, l :: rest =>
    let (ms, mls, md) := scanLines all (i + 1) rest
    let stripped := pstrip l
    if processedSearch stripped then (ms, l :: mls, md)
    else
      match annotationSearch stripped with
      | none => (ms, l :: mls, md)
      | some (ind, pay) =>
        match lookahead all i with
        | none => (ms, l :: mls, md)
        | some name =>
          if processedSearch stripped then
            (⟨i + 1, name, extract_bracket_content pay⟩ :: ms, l :: mls, md)
          else
            (⟨i + 1, name, extract_bracket_content pay⟩ :: ms,
             processedLineOf ind pay :: mls, true)

/-- `check_and_comment_server_impl` on the in-memory line list. -/
def check_and_comment (lines : List (List Char)) :
    List MatchInfo × List (List Char) × Bool :=
  scanLines lines 0 lines

/-- Acceptance decision for the line `l` at index `i`, mirroring the branch
structure of the loop body: skip processed lines, require an annotation
match, require the lookahead to find a class. -/
def acceptAt (all : List (List Char)) (i : Nat) (l : List Char) :
    Option (List Char × List Char × List Char) :=
  if processedSearch (pstrip l) then none
  else
    match annotationSearch (pstrip l) with
    | none => none
    | some (ind, pay) =>
      match lookahead all i with
      | none => none
      | some name => some (ind, pay, name)

example :
    check_and_comment
      ["/* @ServerImpl(\"cfg\") */\n".toList,
       "class Door : public IServer \x7b\n".toList] =
    ([⟨1, "Door".toList, "cfg".toList⟩],
     ["/*--@ServerImpl(\"cfg\")--*/\n".toList,
      "class Door : public IServer \x7b\n".toList], true) := by decide

example :
    check_and_comment
      ["/* @ServerImpl(x) */\n".toList, "int a;\n".toList] =
    ([], ["/* @ServerImpl(x) */\n".toList, "int a;\n".toList], false) := by
  decide

example : extract_bracket_content "\"foo\"".toList = "foo".toList := by decide
example : extract_bracket_content "bar".toList = "bar".toList := by decide
example : extract_bracket_content " 'x' ".toList = "x".toList := by decide

/-! ## Aggregation and code synthesis

`generate_include_statements` re-resolves each record's `file_path` with
`Path.resolve()`; path resolution is filesystem state, so it is taken as an
abstract function `resolve`.  The Python `set` of seen paths is modelled as a
list used only through membership. -/

structure Reg where
  class_name : List Char
  server_impl_content : List Char
  file_path : List Char
deriving DecidableEq

/-- `'\n'.join` on the already-formatted lines. -/
def joinNL : List (List Char) → List Char
  | [] => []
  | [x] => x
  | x :: xs => x ++ '\n' :: joinNL xs

/-- The accumulation loop of `generate_include_statements`: skip a record
whose resolved path was already seen, otherwise emit
`#include "<resolved path>"` and remember the path. -/
def includeLoop (resolve : List Char → List Char) :
    List Reg → List (List Char) → List (List Char)
  | [], _ => []
  | reg :: rest, seen =>
    let fp := resolve reg.file_path
    if fp ∈ seen then includeLoop resolve rest seen
    else ("#include ".toList ++ '"' :: fp ++ ['"']) :: includeLoop resolve rest (seen ++ [fp])

/-- `generate_include_statements` (the `library_dir` argument is unused in the
source, "kept for compatibility"). -/
def generate_include_statements (resolve : List Char → List Char)
    (registrations : List Reg) (library_dir : List Char) : List Char :=
  if registrations = [] then []
  else joinNL (includeLoop resolve registrations [])

/-- One `ServerProvider::RegisterServer<{class_name}>("\x7bcontent\x7d");` line. -/
def regStmt (reg : Reg) : List Char :=
  "    ServerProvider::RegisterServer<".toList ++ reg.class_name ++
    ">(\"".toList ++ reg.server_impl_content ++ "\");".toList

/-- `generate_registration_code`: the statement-accumulating loop followed by
the success sentinel, or the failure sentinel for an empty record list. -/
def generate_registration_code (registrations : List Reg) : List Char :=
  if registrations = [] then "    return false;".toList
  else
    let ls := registrations.foldl (fun acc reg => acc ++ [regStmt reg]) []
    joinNL (ls ++ ["    return true;".toList])

/-! ## The patcher: `update_server_factory_init`

Again file I/O is abstracted: the core function below takes the current
content of `ServerProviderInit.h` and returns the result record together
with the content written back (`none` when no write is performed).  The
`FileNotFound` branch concerns the filesystem and is outside this model.
The placeholder regex
`(inline\s+Bool\s+Init\s*\(\s*\)\s*\{)\s*return\s+false\s*;(\s*\})` contains
no `.` and no anchors, so its `MULTILINE | DOTALL` flags are irrelevant; it
is again a deterministic maximal-munch pattern. -/

/-- Matcher for the placeholder pattern anchored at the current position,
returning group 1, group 2 and the rest of the input after the match. -/
def placeholderAt (s : List Char) : Option (List Char × List Char × List Char) :=
  match lit "inline".toList s with
  | none => none
  | some s₁ =>
    match s₁.head? with
    | none => none
    | some c₁ =>
      if isPySpace c₁ then
        let w₁ := s₁.takeWhile isPySpace
        match lit "Bool".toList (s₁.dropWhile isPySpace) with
        | none => none
        | some s₂ =>
          match s₂.head? with
          | none => none
          | some c₂ =>
            if isPySpace c₂ then
              let w₂ := s₂.takeWhile isPySpace
              match lit "Init".toList (s₂.dropWhile isPySpace) with
              | none => none
              | some s₃ =>
                let w₃ := s₃.takeWhile isPySpace
                match lit ['('] (s₃.dropWhile isPySpace) with
                | none => none
                | some s₄ =>
                  let w₄ := s₄.takeWhile isPySpace
                  match lit [')'] (s₄.dropWhile isPySpace) with
                  | none => none
                  | some s₅ =>
                    let w₅ := s₅.takeWhile isPySpace
                    match lit ['\x7b'] (s₅.dropWhile isPySpace) with
                    | none => none
                    | some s₆ =>
                      match lit "return".toList (s₆.dropWhile isPySpace) with
                      | none => none
                      | some s₇ =>
                        match s₇.head? with
                        | none => none
                        | some c₃ =>
                          if isPySpace c₃ then
                            match lit "false".toList (s₇.dropWhile isPySpace) with
                            | none => none
                            | some s₈ =>
                              match lit [';'] (s₈.dropWhile isPySpace) with
                              | none => none
                              | some s₉ =>
                                let w₆ := s₉.takeWhile isPySpace
                                match lit ['\x7d'] (s₉.dropWhile isPySpace) with
                                | none => none
                                | some s₁₀ =>
                                  some ("inline".toList ++ w₁ ++ "Bool".toList ++ w₂ ++
                                          "Init".toList ++ w₃ ++ '(' :: w₄ ++ ')' :: w₅ ++ ['\x7b'],
                                        w₆ ++ ['\x7d'], s₁₀)
                          else none
            else none
      else none

/-- Position of the leftmost placeholder match (`pattern.search(...).start()`). -/
def placeholderPosAux : Nat → List Char → Option Nat
  | acc, s =>
    match s with
    | [] => none
    | _ :: rest =>
      if (placeholderAt s).isSome then some acc else placeholderPosAux (acc + 1) rest

/-- Leftmost placeholder match position in the whole content, if any. -/
def placeholderSearchPos (s : List Char) : Option Nat :=
  placeholderPosAux 0 s

theorem lit_length : ∀ (p t r : List Char), lit p t = some r → r.length + p.length = t.length := by
  intro p
  induction p with
  | nil => intro t r h; simp [lit] at h; simp [h]
  | cons c cs ih =>
    intro t r h
    cases t with
    | nil => simp [lit] at h
    | cons d ds =>
      simp only [lit] at h
      split at h
      · have := ih ds r h
        simp at this ⊢
        omega
      · exact absurd h (by simp)

theorem lit_le {p t r : List Char} (h : lit p t = some r) : r.length ≤ t.length := by
  have := lit_length p t r h
  omega

theorem placeholderAt_rest_length {s g1 g2 after : List Char}
    (h : placeholderAt s = some (g1, g2, after)) : after.length < s.length := by
  unfold placeholderAt at h
  repeat' split at h
  all_goals try exact Option.noConfusion h
  rename_i x1 t1 e1 x2 c1 hh1 hw1 x3 t2 e2 x4 c2 hh2 hw2 x5 t3 e3 x6 t4 e4
    x7 t5 e5 x8 t6 e6 x9 t7 e7 x10 c3 hh3 hw3 x11 t8 e8 x12 t9 e9 x13 t10 e10
  simp only [Option.some.injEq, Prod.mk.injEq] at h
  obtain ⟨-, -, haf⟩ := h
  subst haf
  have h1 := lit_length _ _ _ e1
  have h6 : ("inline".toList).length = 6 := rfl
  have d1 : (List.dropWhile isPySpace t1).length ≤ t1.length := (List.dropWhile_sublist _).length_le
  have h2 := lit_le e2
  have d2 : (List.dropWhile isPySpace t2).length ≤ t2.length := (List.dropWhile_sublist _).length_le
  have h3 := lit_le e3
  have d3 : (List.dropWhile isPySpace t3).length ≤ t3.length := (List.dropWhile_sublist _).length_le
  have h4 := lit_le e4
  have d4 : (List.dropWhile isPySpace t4).length ≤ t4.length := (List.dropWhile_sublist _).length_le
  have h5 := lit_le e5
  have d5 : (List.dropWhile isPySpace t5).length ≤ t5.length := (List.dropWhile_sublist _).length_le
  have h6' := lit_le e6
  have d6 : (List.dropWhile isPySpace t6).length ≤ t6.length := (List.dropWhile_sublist _).length_le
  have h7 := lit_le e7
  have d7 : (List.dropWhile isPySpace t7).length ≤ t7.length := (List.dropWhile_sublist _).length_le
  have h8 := lit_le e8
  have d8 : (List.dropWhile isPySpace t8).length ≤ t8.length := (List.dropWhile_sublist _).length_le
  have h9 := lit_le e9
  have d9 : (List.dropWhile isPySpace t9).length ≤ t9.length := (List.dropWhile_sublist _).length_le
  have h10 := lit_le e10
  omega

/-- Python `re.sub` with the replacement template `\\1\\n<code>\\2`: scan left
to right, replace every non-overlapping placeholder match, and continue
scanning after the end of each match.  The fuel argument only bounds the
recursion: a placeholder match consumes at least one character
(`placeholderAt_rest_length`), so with `fuel ≥ s.length` the zero-fuel case
is reached only on the empty rest, and the function below scans the whole
input. -/
def subAllAux (code : List Char) : Nat → List Char → List Char
  | _, [] => []
  | 0, s => s
  | fuel + 1, c :: rest =>
    match placeholderAt (c :: rest) with
    | some (g1, g2, after) => g1 ++ '\n' :: code ++ g2 ++ subAllAux code fuel after
    | none => c :: subAllAux code fuel rest

/-- `pattern.sub(replacement, content)` over the whole content. -/
def subAll (code s : List Char) : List Char :=
  subAllAux code s.length s

/-- Does `sub` occur in `s` at position `i`? -/
def pyMatchAtPos (sub s : List Char) (i : Nat) : Bool :=
  (s.drop i).take sub.length == sub

/-- Python `str.rfind(sub, 0, endPos)` (`none` for `-1`): the largest start
position whose match ends by `endPos`. -/
def pyRfind (sub s : List Char) (endPos : Nat) : Option Nat :=
  (pyRange 0 endPos).reverse.find? fun i =>
    decide (i + sub.length ≤ endPos) && pyMatchAtPos sub s i

/-- Python `str.find(sub, start)` (`none` for `-1`). -/
def pyFindFrom (sub s : List Char) (start : Nat) : Option Nat :=
  (pyRange start s.length).find? fun i => pyMatchAtPos sub s i

/-- The `while insert_pos < init_start and content[insert_pos:insert_pos+1]
.strip() == ''` loop: advance over whitespace characters one at a time,
stopping at `init_start`.  Fuel bounds the recursion; the loop runs at most
`initStart - pos` times, so the zero-fuel case coincides with the loop
guard failing. -/
def skipBlankAux (content : List Char) (initStart : Nat) : Nat → Nat → Nat
  | 0, pos => pos
  | fuel + 1, pos =>
    if pos < initStart ∧ pstrip ((content.drop pos).take 1) = [] then
      skipBlankAux content initStart fuel (pos + 1)
    else pos

/-- The whitespace-skipping loop of the include-insertion step. -/
def skipBlank (content : List Char) (initStart : Nat) (pos : Nat) : Nat :=
  skipBlankAux content initStart (initStart - pos) pos

/-- `content[:pos] + include_statements + '\n\n' + content[pos:]`. -/
def insertNN (content inc : List Char) (pos : Nat) : List Char :=
  content.take pos ++ inc ++ '\n' :: '\n' :: content.drop pos

/-- Result record of `update_server_factory_init`: the `success` flag, the
`error` message, and the content written back (`none` when no write happens). -/
structure PatchResult where
  success : Bool
  error : Option (List Char)
  written : Option (List Char)
deriving DecidableEq

/-- Content-level core of `update_server_factory_init`: takes
`registration_code`, `include_statements` and the current content of
`ServerProviderInit.h`, returns the result together with the written
content.  The file-existence check (`FileNotFound`) belongs to the I/O layer
and is outside this model. -/
def update_server_factory_init_core
    (registration_code include_statements content : List Char) : PatchResult :=
  let content₁ :=
    if include_statements ≠ [] then
      match placeholderSearchPos content with
      | some initStart =>
        match pyRfind "#include".toList content initStart with
        | some lastInc =>
          let ip₀ := match pyFindFrom ['\n'] content lastInc with
                     | some k => k + 1
                     | none => 0
          insertNN content include_statements (skipBlank content initStart ip₀)
        | none =>
          match pyRfind "/**".toList content initStart with
          | some lastCom =>
            let ce := match pyFindFrom ['*', '/'] content lastCom with
                      | some k => k + 2
                      | none => 1
            let ip₀ := match pyFindFrom ['\n'] content ce with
                       | some k => k + 1
                       | none => 0
            insertNN content include_statements (skipBlank content initStart ip₀)
          | none => insertNN content include_statements initStart
      | none => content
    else content
  let newContent := subAll registration_code content₁
  if newContent = content₁ ∧ include_statements = [] then
    { success := false,
      error := some "Could not find placeholder Init() function to replace".toList,
      written := none }
  else
    { success := true, error := none, written := some newContent }

example :
    placeholderSearchPos "inline Bool Init() \x7b\n    return false;\n\x7d\n".toList =
      some 0 := by decide

example :
    subAll "X".toList "A inline Bool Init() \x7b return false; \x7d B".toList =
      "A inline Bool Init() \x7b\nX \x7d B".toList := by decide

/-! ## Characterization of the scanner loop -/

theorem acceptAt_nil (all : List (List Char)) (i : Nat) : acceptAt all i [] = none := rfl

/-- The line that the scanner leaves at a position: the processed
replacement for an accepted marker, the original line otherwise. -/
def mlineOf (all : List (List Char)) (i : Nat) (l : List Char) : List Char :=
  match acceptAt all i l with
  | some (ind, pay, _) => processedLineOf ind pay
  | none => l

/-- The match entries that the scanner appends for a single line. -/
def matchOf (all : List (List Char)) (i : Nat) (l : List Char) : List MatchInfo :=
  match acceptAt all i l with
  | some (_, pay, name) => [⟨i + 1, name, extract_bracket_content pay⟩]
  | none => []

theorem scanLines_cons (all : List (List Char)) (i : Nat) (l : List Char)
    (rest : List (List Char)) :
    scanLines all i (l :: rest) =
      (matchOf all i l ++ (scanLines all (i + 1) rest).1,
       mlineOf all i l :: (scanLines all (i + 1) rest).2.1,
       ((acceptAt all i l).isSome || (scanLines all (i + 1) rest).2.2)) := by
  simp only [scanLines]
  repeat' split
  all_goals simp_all [matchOf, mlineOf, acceptAt]

theorem scanLines_modlines_length (all : List (List Char)) :
    ∀ (i : Nat) (rest : List (List Char)),
      ((scanLines all i rest).2.1).length = rest.length := by
  intro i rest
  induction rest generalizing i with
  | nil => simp [scanLines]
  | cons l rest ih => simp [scanLines_cons, ih (i + 1)]

theorem scanLines_modlines_getD (all : List (List Char)) :
    ∀ (i : Nat) (rest : List (List Char)) (k : Nat),
      ((scanLines all i rest).2.1).getD k [] =
        mlineOf all (i + k) (rest.getD k []) := by
  intro i rest
  induction rest generalizing i with
  | nil =>
    intro k
    simp [scanLines, mlineOf, acceptAt_nil]
  | cons l rest ih =>
    intro k
    cases k with
    | zero => simp [scanLines_cons]
    | succ k =>
      have hk : i + (k + 1) = (i + 1) + k := by omega
      simp only [scanLines_cons, List.getD_cons_succ, hk]
      exact ih (i + 1) k

theorem scanLines_mem_matches (all : List (List Char)) :
    ∀ (i : Nat) (rest : List (List Char)) (m : MatchInfo),
      m ∈ (scanLines all i rest).1 ↔
        ∃ k, k < rest.length ∧ m ∈ matchOf all (i + k) (rest.getD k []) := by
  intro i rest
  induction rest generalizing i with
  | nil => intro m; simp [scanLines]
  | cons l rest ih =>
    intro m
    simp only [scanLines_cons, List.mem_append, ih (i + 1)]
    constructor
    · rintro (h | ⟨k, hk, hm⟩)
      · exact ⟨0, by simp, by simpa using h⟩
      · exact ⟨k + 1, by simpa using hk, by simpa [Nat.add_comm, Nat.add_assoc, Nat.add_left_comm] using hm⟩
    · rintro ⟨k, hk, hm⟩
      cases k with
      | zero => exact Or.inl (by simpa using hm)
      | succ k =>
        refine Or.inr ⟨k, by simpa using hk, ?_⟩
        simpa [Nat.add_comm, Nat.add_assoc, Nat.add_left_comm] using hm

theorem scanLines_modified_iff (all : List (List Char)) :
    ∀ (i : Nat) (rest : List (List Char)),
      (scanLines all i rest).2.2 = true ↔
        ∃ k, k < rest.length ∧ (acceptAt all (i + k) (rest.getD k [])).isSome := by
  intro i rest
  induction rest generalizing i with
  | nil => simp [scanLines]
  | cons l rest ih =>
    simp only [scanLines_cons, Bool.or_eq_true, ih (i + 1)]
    constructor
    · rintro (h | ⟨k, hk, hm⟩)
      · exact ⟨0, by simp, by simpa using h⟩
      · exact ⟨k + 1, by simpa using hk, by simpa [Nat.add_comm, Nat.add_assoc, Nat.add_left_comm] using hm⟩
    · rintro ⟨k, hk, hm⟩
      cases k with
      | zero => exact Or.inl (by simpa using hm)
      | succ k =>
        refine Or.inr ⟨k, by simpa using hk, ?_⟩
        simpa [Nat.add_comm, Nat.add_assoc, Nat.add_left_comm] using hm

/-! ## Properties of the rewritten marker line -/

theorem searchOpt_exists {α : Type} {f : List Char → Option α} :
    ∀ {s : List Char} {a : α}, searchOpt f s = some a → ∃ t, f t = some a := by
  intro s
  induction s with
  | nil => intro a h; exact ⟨[], by simpa [searchOpt] using h⟩
  | cons c rest ih =>
    intro a h
    simp only [searchOpt] at h
    cases hf : f (c :: rest) with
    | some b => exact ⟨c :: rest, by simp_all [Option.orElse]⟩
    | none => exact ih (by simp_all [Option.orElse])

theorem annotationAt_groups {s ind pay : List Char}
    (h : annotationAt s = some (ind, pay)) :
    (∀ c ∈ ind, isPySpace c = true) ∧ (∀ c ∈ pay, c ≠ ')') := by
  simp only [annotationAt] at h
  repeat' split at h
  all_goals try exact Option.noConfusion h
  simp only [Option.some.injEq, Prod.mk.injEq] at h
  obtain ⟨hind, hpay⟩ := h
  subst hind hpay
  constructor
  · intro c hc
    exact List.mem_takeWhile_imp hc
  · intro c hc
    simpa using List.mem_takeWhile_imp hc

theorem annotationSearch_groups {s ind pay : List Char}
    (h : annotationSearch s = some (ind, pay)) :
    (∀ c ∈ ind, isPySpace c = true) ∧ (∀ c ∈ pay, c ≠ ')') := by
  obtain ⟨t, ht⟩ := searchOpt_exists h
  exact annotationAt_groups ht

theorem procOpen_eq :
    procOpen = ['/', '*', '-', '-', '@', 'S', 'e', 'r', 'v', 'e', 'r',
                'I', 'm', 'p', 'l', '('] := rfl

theorem procClose_eq : procClose = [')', '-', '-', '*', '/'] := rfl

theorem pstrip_processedLine {ind pay : List Char}
    (hind : ∀ c ∈ ind, isPySpace c = true) :
    pstrip (processedLineOf ind pay) = coreOf pay := by
  unfold pstrip processedLineOf
  rw [List.append_assoc, List.dropWhile_append_of_pos hind]
  have hcore : ∃ t, coreOf pay = '/' :: t := ⟨_, rfl⟩
  obtain ⟨t, ht⟩ := hcore
  rw [ht]
  have h1 : List.dropWhile isPySpace ('/' :: t ++ ['\n']) = '/' :: t ++ ['\n'] := by
    simp [List.dropWhile_cons, isPySpace]
  rw [h1]
  have h2 : ('/' :: t ++ ['\n']).reverse = '\n' :: ('/' :: t).reverse := by
    simp
  rw [h2]
  have h3 : List.dropWhile isPySpace ('\n' :: ('/' :: t).reverse) =
      List.dropWhile isPySpace (('/' :: t).reverse) := by
    simp [List.dropWhile_cons, isPySpace]
  rw [h3]
  have h4 : ∃ u, coreOf pay = u ++ ['/'] := by
    refine ⟨procOpen ++ pay ++ [')', '-', '-', '*'], ?_⟩
    simp [coreOf, procClose_eq]
  obtain ⟨u, hu⟩ := h4
  rw [ht] at hu
  rw [hu]
  have h5 : (u ++ ['/']).reverse = '/' :: u.reverse := by simp
  rw [h5]
  have h6 : List.dropWhile isPySpace ('/' :: u.reverse) = '/' :: u.reverse := by
    simp [List.dropWhile_cons, isPySpace]
  rw [h6, ← h5, List.reverse_reverse]

theorem processedAt_frame (tail : List Char) :
    processedAt ('/' :: '*' :: '-' :: '-' :: '@' :: 'S' :: 'e' :: 'r' :: 'v' :: 'e' :: 'r' ::
        'I' :: 'm' :: 'p' :: 'l' :: '(' :: tail) =
      (match lit [')'] (tail.dropWhile (· ≠ ')')) with
       | none => false
       | some s₄ => (lit ['-', '-', '*', '/'] (s₄.dropWhile isPySpace)).isSome) := rfl

theorem processedAt_core {pay : List Char} (hpay : ∀ c ∈ pay, c ≠ ')') :
    processedAt (coreOf pay) = true := by
  have hshape : coreOf pay =
      '/' :: '*' :: '-' :: '-' :: '@' :: 'S' :: 'e' :: 'r' :: 'v' :: 'e' :: 'r' ::
        'I' :: 'm' :: 'p' :: 'l' :: '(' :: (pay ++ [')', '-', '-', '*', '/']) := by
    simp [coreOf, procOpen_eq, procClose_eq]
  have hdrop : List.dropWhile (fun c => decide (c ≠ ')')) (pay ++ [')', '-', '-', '*', '/']) =
      [')', '-', '-', '*', '/'] := by
    rw [List.dropWhile_append_of_pos (by intro a ha; simpa using hpay a ha)]
    simp [List.dropWhile_cons]
  rw [hshape, processedAt_frame]
  rw [show (fun c => ((· ≠ ')') c : Bool)) = fun c => decide (c ≠ ')') from rfl, hdrop]
  rfl

theorem processedSearch_core {pay : List Char} (hpay : ∀ c ∈ pay, c ≠ ')') :
    processedSearch (coreOf pay) = true := by
  have hshape : coreOf pay =
      '/' :: ('*' :: '-' :: '-' :: '@' :: 'S' :: 'e' :: 'r' :: 'v' :: 'e' :: 'r' ::
        'I' :: 'm' :: 'p' :: 'l' :: '(' :: (pay ++ [')', '-', '-', '*', '/'])) := by
    simp [coreOf, procOpen_eq, procClose_eq]
  have h := processedAt_core hpay
  rw [hshape] at h ⊢
  simp [processedSearch, searchBool, h]

/-! ## Second-pass idempotence machinery -/

theorem acceptAt_some_elim {all : List (List Char)} {i : Nat} {l ind pay name : List Char}
    (h : acceptAt all i l = some (ind, pay, name)) :
    processedSearch (pstrip l) = false ∧
      annotationSearch (pstrip l) = some (ind, pay) ∧ lookahead all i = some name := by
  unfold acceptAt at h
  repeat' split at h
  all_goals try exact Option.noConfusion h
  simp only [Option.some.injEq, Prod.mk.injEq] at h
  obtain ⟨h1, h2, h3⟩ := h
  subst h1 h2 h3
  simp_all

theorem acceptAt_none_elim {all : List (List Char)} {i : Nat} {l : List Char}
    (h : acceptAt all i l = none) :
    processedSearch (pstrip l) = true ∨ annotationSearch (pstrip l) = none ∨
      (processedSearch (pstrip l) = false ∧ (annotationSearch (pstrip l)).isSome ∧
        lookahead all i = none) := by
  unfold acceptAt at h
  split at h
  · simp_all
  · split at h
    · simp_all
    · split at h
      · simp_all
      · exact Option.noConfusion h

/-- A list of lines on which every line is either in processed form or has no
unprocessed-marker match is left entirely alone by the scanner. -/
theorem scanLines_of_inert (all : List (List Char)) :
    ∀ (i : Nat) (rest : List (List Char)),
      (∀ l ∈ rest, processedSearch (pstrip l) = true ∨ annotationSearch (pstrip l) = none) →
      scanLines all i rest = ([], rest, false) := by
  intro i rest
  induction rest generalizing i with
  | nil => intro _; rfl
  | cons l rest ih =>
    intro h
    have hl := h l (by simp)
    have hrest := ih (i + 1) (fun x hx => h x (by simp [hx]))
    rcases hl with hl | hl
    · simp [scanLines, hrest, hl]
    · simp only [scanLines, hrest, hl]
      split
      · rfl
      · rfl

/-- After a first pass that accepted every unprocessed marker, every line of
`modified_lines` is inert: processed-marker lines are recognized by the
processed pattern, and all remaining lines never matched in the first place. -/
theorem modlines_inert (lines : List (List Char))
    (hall : ∀ i, i < lines.length →
      processedSearch (pstrip (lines.getD i [])) = false →
      (annotationSearch (pstrip (lines.getD i []))).isSome →
      (lookahead lines i).isSome) :
    ∀ m ∈ (check_and_comment lines).2.1,
      processedSearch (pstrip m) = true ∨ annotationSearch (pstrip m) = none := by
  intro m hm
  obtain ⟨k, hk⟩ := List.mem_iff_getElem?.1 hm
  have hklen : k < ((check_and_comment lines).2.1).length :=
    (List.getElem?_eq_some.1 hk).1
  have hmk : ((check_and_comment lines).2.1).getD k [] = m := by
    simp [List.getD_eq_getElem?_getD, hk]
  have hchar := scanLines_modlines_getD lines 0 lines k
  simp only [Nat.zero_add] at hchar
  simp only [check_and_comment] at hmk hklen
  rw [hmk] at hchar
  have hklines : k < lines.length := by
    have := scanLines_modlines_length lines 0 lines
    simpa [check_and_comment, this] using hklen
  unfold mlineOf at hchar
  rcases hacc : acceptAt lines k (lines.getD k []) with _ | ⟨ind, pay, name⟩
  · simp only [hacc] at hchar
    rcases acceptAt_none_elim hacc with h | h | ⟨hps, h1, h2⟩
    · left; rw [hchar]; exact h
    · right; rw [hchar]; exact h
    · have := hall k hklines hps h1
      simp [h2] at this
  · simp only [hacc] at hchar
    obtain ⟨-, hann, -⟩ := acceptAt_some_elim hacc
    obtain ⟨hind, hpay⟩ := annotationSearch_groups hann
    left
    rw [hchar, pstrip_processedLine hind]
    exact processedSearch_core hpay

/-! ## Claim theorems: scanner -/

/-- C1: running the scan+rewrite a second time on a file whose unprocessed
markers were all accepted (hence rewritten) by a first run finds zero
unprocessed markers (every resulting line is either in processed form or
matches no marker), appends zero match entries, reports `modified = false`
(so no write is performed), and leaves every line unchanged. -/
theorem second_pass_is_noop (lines : List (List Char))
    (hall : ∀ i, i < lines.length →
      processedSearch (pstrip (lines.getD i [])) = false →
      (annotationSearch (pstrip (lines.getD i []))).isSome →
      (lookahead lines i).isSome) :
    check_and_comment ((check_and_comment lines).2.1) =
        ([], (check_and_comment lines).2.1, false) ∧
      ∀ m ∈ (check_and_comment lines).2.1,
        processedSearch (pstrip m) = true ∨ annotationSearch (pstrip m) = none := by
  have hin := modlines_inert lines hall
  exact ⟨scanLines_of_inert _ 0 _ hin, hin⟩

/-- Witness for C1 at a concrete two-line file containing one accepted
marker. -/
theorem second_pass_is_noop_witness :
    check_and_comment ((check_and_comment
        ["/* @ServerImpl(\"x\") */\n".toList,
         "class A final : public IServer \x7b\n".toList]).2.1) =
      ([], (check_and_comment
        ["/* @ServerImpl(\"x\") */\n".toList,
         "class A final : public IServer \x7b\n".toList]).2.1, false) ∧
    ∀ m ∈ (check_and_comment
        ["/* @ServerImpl(\"x\") */\n".toList,
         "class A final : public IServer \x7b\n".toList]).2.1,
      processedSearch (pstrip m) = true ∨ annotationSearch (pstrip m) = none :=
  second_pass_is_noop
    ["/* @ServerImpl(\"x\") */\n".toList,
     "class A final : public IServer \x7b\n".toList]
    (by decide)

theorem findClassIn_isSome (lines : List (List Char)) :
    ∀ js : List Nat, (findClassIn lines js).isSome ↔
      ∃ j ∈ js, (classSearch (lines.getD j [])).isSome := by
  intro js
  induction js with
  | nil => simp [findClassIn]
  | cons j js ih =>
    simp only [findClassIn]
    split
    · simp_all
    · simp_all

theorem pyRange_mem (a b m : Nat) : m ∈ pyRange a b ↔ a ≤ m ∧ m < b := by
  simp only [pyRange, List.mem_range'_1]
  omega

theorem lookahead_isSome_iff (lines : List (List Char)) (i : Nat) :
    (lookahead lines i).isSome ↔
      ∃ j, i + 1 ≤ j ∧ j ≤ i + 5 ∧ j < lines.length ∧
        (classSearch (lines.getD j [])).isSome := by
  simp only [lookahead, findClassIn_isSome, pyRange_mem]
  constructor
  · rintro ⟨j, ⟨h1, h2⟩, h3⟩
    exact ⟨j, h1, by omega, by omega, h3⟩
  · rintro ⟨j, h1, h2, h3, h4⟩
    exact ⟨j, ⟨h1, by omega⟩, h4⟩

theorem acceptAt_some_intro {all : List (List Char)} {i : Nat} {l ind pay name : List Char}
    (hp : processedSearch (pstrip l) = false)
    (ha : annotationSearch (pstrip l) = some (ind, pay))
    (hl : lookahead all i = some name) :
    acceptAt all i l = some (ind, pay, name) := by
  simp [acceptAt, hp, ha, hl]

theorem acceptAt_none_of_lookahead {all : List (List Char)} {i : Nat} {l : List Char}
    (hl : lookahead all i = none) : acceptAt all i l = none := by
  unfold acceptAt
  repeat' split
  all_goals simp_all

/-- C2: an unprocessed marker on line index `i` yields a match entry exactly
when some line `j` with `i + 1 ≤ j ≤ i + 5` inside the file matches the
class pattern; when no such line exists, the marker produces no entry and
its line is left unchanged (ignored entirely). -/
theorem marker_accept_iff (lines : List (List Char)) (i : Nat)
    (hi : i < lines.length)
    (hp : processedSearch (pstrip (lines.getD i [])) = false)
    (ha : (annotationSearch (pstrip (lines.getD i []))).isSome) :
    ((∃ m ∈ (check_and_comment lines).1, m.line_number = i + 1) ↔
      ∃ j, i + 1 ≤ j ∧ j ≤ i + 5 ∧ j < lines.length ∧
        (classSearch (lines.getD j [])).isSome) ∧
    (lookahead lines i = none →
      (∀ m ∈ (check_and_comment lines).1, m.line_number ≠ i + 1) ∧
        (check_and_comment lines).2.1.getD i [] = lines.getD i []) := by
  have hmem : ∀ m : MatchInfo, m ∈ (check_and_comment lines).1 ↔
      ∃ k, k < lines.length ∧ m ∈ matchOf lines k (lines.getD k []) := by
    intro m
    have := scanLines_mem_matches lines 0 lines m
    simpa [check_and_comment] using this
  have hiff : (∃ m ∈ (check_and_comment lines).1, m.line_number = i + 1) ↔
      (lookahead lines i).isSome := by
    constructor
    · rintro ⟨m, hm, hln⟩
      obtain ⟨k, hk, hmk⟩ := (hmem m).1 hm
      unfold matchOf at hmk
      rcases hacc : acceptAt lines k (lines.getD k []) with _ | ⟨ind, pay, name⟩
      · rw [hacc] at hmk
        simp at hmk
      · rw [hacc] at hmk
        simp only [List.mem_singleton] at hmk
        subst hmk
        simp only [MatchInfo.mk.injEq] at hln ⊢
        have hki : k = i := by simpa using hln
        subst hki
        obtain ⟨-, -, hl⟩ := acceptAt_some_elim hacc
        simp [hl]
    · intro hl
      obtain ⟨name, hname⟩ := Option.isSome_iff_exists.1 hl
      obtain ⟨⟨ind, pay⟩, hann⟩ := Option.isSome_iff_exists.1 ha
      refine ⟨⟨i + 1, name, extract_bracket_content pay⟩, ?_, rfl⟩
      refine (hmem _).2 ⟨i, hi, ?_⟩
      unfold matchOf
      rw [acceptAt_some_intro hp hann hname]
      simp
  constructor
  · rw [hiff, lookahead_isSome_iff]
  · intro hl
    constructor
    · intro m hm hln
      have : (∃ m ∈ (check_and_comment lines).1, m.line_number = i + 1) := ⟨m, hm, hln⟩
      rw [hiff] at this
      simp [hl] at this
    · have := scanLines_modlines_getD lines 0 lines i
      simp only [Nat.zero_add, check_and_comment] at this ⊢
      rw [this, mlineOf, acceptAt_none_of_lookahead hl]

/-- Witness for C2: a class declaration exactly five lines after the marker
is accepted. -/
theorem marker_accept_iff_witness :
    ∃ m ∈ (check_and_comment
        ["/* @ServerImpl(cfg) */\n".toList, "// a\n".toList, "\n".toList,
         "\n".toList, "\n".toList, "class Five : public IServer \x7b\n".toList]).1,
      m.line_number = 0 + 1 :=
  (marker_accept_iff
      ["/* @ServerImpl(cfg) */\n".toList, "// a\n".toList, "\n".toList,
       "\n".toList, "\n".toList, "class Five : public IServer \x7b\n".toList]
      0 (by decide) (by decide) (by decide)).1.mpr
    ⟨5, by decide, by decide, by decide, by decide⟩

/-- C3 (code-bug evidence): the marker line indented by two spaces is
rewritten to a processed line with no leading indentation.  The annotation
pattern is searched against the stripped line, so the captured indentation
group is empty whenever the marker starts the line; the indentation-preserving
form announced by the code's own comment (and the spec) would instead keep
the two spaces. -/
theorem rewrite_drops_indentation :
    (check_and_comment
        ["  /* @ServerImpl(\"cfg\") */\n".toList,
         "class Door : public IServer \x7b\n".toList]).2.1.getD 0 [] =
      "/*--@ServerImpl(\"cfg\")--*/\n".toList ∧
    "/*--@ServerImpl(\"cfg\")--*/\n".toList ≠
      "  /*--@ServerImpl(\"cfg\")--*/\n".toList := by decide

/-- C4: extraction strips surrounding whitespace; when the trimmed text both
starts and ends with a double quote, or both starts and ends with a single
quote, exactly the first and last characters are removed; otherwise the
trimmed text is returned verbatim. -/
theorem extract_bracket_content_spec (s : List Char) :
    ((((pstrip s).head? = some '"' ∧ (pstrip s).getLast? = some '"') ∨
      ((pstrip s).head? = some '\'' ∧ (pstrip s).getLast? = some '\'')) →
      extract_bracket_content s = ((pstrip s).drop 1).dropLast) ∧
    (¬ ((((pstrip s).head? = some '"' ∧ (pstrip s).getLast? = some '"') ∨
        ((pstrip s).head? = some '\'' ∧ (pstrip s).getLast? = some '\''))) →
      extract_bracket_content s = pstrip s) := by
  constructor
  · intro h
    unfold extract_bracket_content
    split
    · rename_i hs
      subst hs
      rcases h with ⟨h1, -⟩ | ⟨h1, -⟩ <;> simp [pstrip] at h1
    · dsimp only
      split
      · rfl
      · rename_i hc
        simp only [Bool.or_eq_true, Bool.and_eq_true, decide_eq_true_eq] at hc
        exact absurd h (by tauto)
  · intro h
    unfold extract_bracket_content
    split
    · rename_i hs
      subst hs
      simp [pstrip]
    · dsimp only
      split
      · rename_i hc
        simp only [Bool.or_eq_true, Bool.and_eq_true, decide_eq_true_eq] at hc
        exact absurd (by tauto : _) h
      · rfl

/-- Witness for C4: `"foo"` loses its quotes, `bar` is unchanged. -/
theorem extract_bracket_content_spec_witness :
    extract_bracket_content "\"foo\"".toList = "foo".toList ∧
    extract_bracket_content "bar".toList = "bar".toList :=
  ⟨((extract_bracket_content_spec "\"foo\"".toList).1
      (Or.inl ⟨by decide, by decide⟩)).trans (by decide),
   ((extract_bracket_content_spec "bar".toList).2 (by decide)).trans (by decide)⟩

/-! ## Claim theorems: code synthesis -/

/-- Keep the first occurrence of every element, deleting all later
duplicates; the reference description of first-occurrence deduplication. -/
def firstDedup : List (List Char) → List (List Char)
  | [] => []
  | x :: xs => x :: firstDedup (xs.filter (· ≠ x))
termination_by l => l.length
decreasing_by
  have := List.length_filter_le (fun p => (p ≠ x : Bool)) xs
  simp at this ⊢
  omega

theorem firstDedup_cons (x : List Char) (xs : List (List Char)) :
    firstDedup (x :: xs) = x :: firstDedup (xs.filter (· ≠ x)) := by
  rw [firstDedup]

theorem firstDedup_sublen : ∀ (n : Nat) (l : List (List Char)), l.length ≤ n →
    ∀ a ∈ firstDedup l, a ∈ l := by
  intro n
  induction n with
  | zero =>
    intro l hl
    have : l = [] := List.length_eq_zero.1 (by omega)
    subst this
    simp [firstDedup]
  | succ n ih =>
    intro l hl a ha
    cases l with
    | nil => simpa [firstDedup] using ha
    | cons x xs =>
      rw [firstDedup_cons] at ha
      rcases List.mem_cons.1 ha with ha | ha
      · simp [ha]
      · have hlen : (xs.filter (· ≠ x)).length ≤ n := by
          have := List.length_filter_le (fun p => (p ≠ x : Bool)) xs
          simp at hl
          omega
        have := ih _ hlen a ha
        simp only [List.mem_filter] at this
        simp [this.1]

theorem firstDedup_nodup : ∀ (n : Nat) (l : List (List Char)), l.length ≤ n →
    (firstDedup l).Nodup := by
  intro n
  induction n with
  | zero =>
    intro l hl
    have : l = [] := List.length_eq_zero.1 (by omega)
    subst this
    simp [firstDedup]
  | succ n ih =>
    intro l hl
    cases l with
    | nil => simp [firstDedup]
    | cons x xs =>
      rw [firstDedup_cons]
      have hlen : (xs.filter (· ≠ x)).length ≤ n := by
        have := List.length_filter_le (fun p => (p ≠ x : Bool)) xs
        simp at hl
        omega
      refine List.nodup_cons.2 ⟨?_, ih _ hlen⟩
      intro hx
      have := firstDedup_sublen n _ hlen x hx
      simp at this

theorem filter_seen_snoc (l : List (List Char)) (seen : List (List Char)) (x : List Char) :
    (l.filter fun p => ¬ p ∈ (seen ++ [x])) =
      ((l.filter fun p => ¬ p ∈ seen).filter fun p => p ≠ x) := by
  rw [List.filter_filter]
  apply List.filter_congr
  intro a _
  by_cases h1 : a = x <;> by_cases h2 : a ∈ seen <;> simp [h1, h2]

theorem includeLoop_eq (resolve : List Char → List Char) :
    ∀ (regs : List Reg) (seen : List (List Char)),
      includeLoop resolve regs seen =
        (firstDedup (((regs.map fun r => resolve r.file_path)).filter
            fun p => ¬ p ∈ seen)).map
          (fun p => "#include ".toList ++ '"' :: p ++ ['"']) := by
  intro regs
  induction regs with
  | nil => intro seen; simp [includeLoop, firstDedup]
  | cons r rest ih =>
    intro seen
    simp only [includeLoop, List.map_cons, List.filter_cons]
    by_cases hmem : resolve r.file_path ∈ seen
    · rw [if_pos hmem, ih seen]
      simp [hmem]
    · rw [if_neg hmem, ih (seen ++ [resolve r.file_path])]
      have hcond : (decide ¬ resolve r.file_path ∈ seen) = true := by simp [hmem]
      simp only [hcond, if_true]
      rw [firstDedup_cons, filter_seen_snoc]
      simp

/-- C5: the synthesized include list consists of exactly one directive per
distinct resolved path, in first-occurrence order (`firstDedup`), each the
quoted resolved path; the record list being empty yields the empty string.
The conjunction instantiates the duplicate-path, distinct-path and empty
cases concretely. -/
theorem include_statements_spec :
    (∀ (resolve : List Char → List Char) (regs : List Reg) (lib : List Char),
      generate_include_statements resolve regs lib =
        joinNL ((firstDedup (regs.map fun r => resolve r.file_path)).map
          (fun p => "#include ".toList ++ '"' :: p ++ ['"']))) ∧
    (∀ l : List (List Char), (firstDedup l).Nodup) ∧
    generate_include_statements (fun p => p)
        [⟨"A".toList, "x".toList, "/lib/a.h".toList⟩,
         ⟨"B".toList, "y".toList, "/lib/a.h".toList⟩] [] =
      "#include \"/lib/a.h\"".toList ∧
    generate_include_statements (fun p => p)
        [⟨"A".toList, "x".toList, "/lib/a.h".toList⟩,
         ⟨"B".toList, "y".toList, "/lib/b.h".toList⟩] [] =
      "#include \"/lib/a.h\"\n#include \"/lib/b.h\"".toList ∧
    generate_include_statements (fun p => p) [] [] = [] := by
  refine ⟨?_, fun l => firstDedup_nodup l.length l le_rfl, by decide, by decide, rfl⟩
  intro resolve regs lib
  unfold generate_include_statements
  by_cases h : regs = []
  · subst h
    simp [firstDedup, joinNL]
  · rw [if_neg h, includeLoop_eq resolve regs []]
    simp

/-- C6: for a non-empty record list the registration body is one statement
per record, in order, followed by the success sentinel `return true;`; for
the empty list it is the single failure sentinel `return false;`. -/
theorem registration_code_spec :
    (∀ regs : List Reg, regs ≠ [] →
      generate_registration_code regs =
        joinNL (regs.map regStmt ++ ["    return true;".toList])) ∧
    generate_registration_code [] = "    return false;".toList := by
  constructor
  · intro regs h
    unfold generate_registration_code
    rw [if_neg h]
    have hfold : ∀ (l : List Reg) (acc : List (List Char)),
        l.foldl (fun acc reg => acc ++ [regStmt reg]) acc = acc ++ l.map regStmt := by
      intro l
      induction l with
      | nil => simp
      | cons x xs ih => intro acc; simp [ih]
    simp [hfold regs []]
  · rfl

/-- Witness for C6 at a single concrete record. -/
theorem registration_code_spec_witness :
    generate_registration_code [⟨"Door".toList, "cfg".toList, "/lib/d.h".toList⟩] =
      "    ServerProvider::RegisterServer<Door>(\"cfg\");\n    return true;".toList :=
  (registration_code_spec.1 _ (by simp)).trans (by decide)

/-! ## Claim theorems: the patcher -/

theorem subAllAux_of_nomatch (code : List Char) :
    ∀ (fuel : Nat) (s : List Char) (acc : Nat),
      placeholderPosAux acc s = none → subAllAux code fuel s = s := by
  intro fuel
  induction fuel with
  | zero => intro s acc h; cases s <;> rfl
  | succ fuel ih =>
    intro s acc h
    cases s with
    | nil => rfl
    | cons c r =>
      simp only [placeholderPosAux] at h
      split at h
      · exact absurd h (by simp)
      · rename_i hns
        have hnone : placeholderAt (c :: r) = none := by
          cases hp : placeholderAt (c :: r)
          · rfl
          · rw [hp] at hns; simp at hns
        simp only [subAllAux]
        rw [hnone]
        exact congrArg (c :: ·) (ih r (acc + 1) h)

/-- Shared helper: with the placeholder absent and no includes, the error is
reported and nothing is written. -/
theorem patchCoreMissingEmpty (content code : List Char)
    (h : placeholderSearchPos content = none) :
    update_server_factory_init_core code [] content =
      { success := false,
        error := some "Could not find placeholder Init() function to replace".toList,
        written := none } := by
  unfold update_server_factory_init_core
  have hsub : subAll code content = content :=
    subAllAux_of_nomatch code content.length content 0 h
  simp [hsub]

/-- Shared helper: with the placeholder absent and a non-empty include list,
the operation inserts nothing, reports success, and writes the input back
unchanged. -/
theorem patchCoreMissingNonempty (content code inc : List Char)
    (h : placeholderSearchPos content = none) (hinc : inc ≠ []) :
    update_server_factory_init_core code inc content =
      { success := true, error := none, written := some content } := by
  unfold update_server_factory_init_core
  have hsub : subAll code content = content :=
    subAllAux_of_nomatch code content.length content 0 h
  simp [hinc, h, hsub]

/-- C7: a content without the placeholder construct, patched with an empty
include list, yields the PlaceholderNotFound error, no write, and the file
content (never rewritten) stays byte-identical. -/
theorem patch_placeholder_missing (content code : List Char)
    (h : placeholderSearchPos content = none) :
    update_server_factory_init_core code [] content =
      { success := false,
        error := some "Could not find placeholder Init() function to replace".toList,
        written := none } :=
  patchCoreMissingEmpty content code h

/-- Witness for C7 on a concrete placeholder-free content. -/
theorem patch_placeholder_missing_witness :
    update_server_factory_init_core "    return true;".toList [] "int x;\n".toList =
      { success := false,
        error := some "Could not find placeholder Init() function to replace".toList,
        written := none } :=
  patch_placeholder_missing "int x;\n".toList "    return true;".toList (by decide)

/-- C9 counterexample: with the placeholder absent and a non-empty include
list the operation reports success with no error, not the claimed
no-op-with-error. -/
theorem patch_missing_with_includes_counterexample :
    (update_server_factory_init_core "    return true;".toList
          "#include \"/lib/a.h\"".toList "int x;\n".toList).error = none ∧
      (update_server_factory_init_core "    return true;".toList
          "#include \"/lib/a.h\"".toList "int x;\n".toList).success = true := by
  decide

/-- C9 amended: with the placeholder absent the registration body is never
substituted, but the error is reported only when the include list is also
empty; with a non-empty include list the operation inserts nothing, reports
success, and writes the content back unchanged. -/
theorem patch_missing_amended (content code inc : List Char)
    (h : placeholderSearchPos content = none) :
    (inc = [] → update_server_factory_init_core code inc content =
      { success := false,
        error := some "Could not find placeholder Init() function to replace".toList,
        written := none }) ∧
    (inc ≠ [] → update_server_factory_init_core code inc content =
      { success := true, error := none, written := some content }) :=
  ⟨fun hinc => hinc ▸ patchCoreMissingEmpty content code h,
   fun hinc => patchCoreMissingNonempty content code inc h hinc⟩

/-- Witness for the amended C9 at concrete inputs, one per include case. -/
theorem patch_missing_amended_witness :
    update_server_factory_init_core "    return true;".toList [] "int x;\n".toList =
      { success := false,
        error := some "Could not find placeholder Init() function to replace".toList,
        written := none } ∧
    update_server_factory_init_core "    return true;".toList
        "#include \"/lib/a.h\"".toList "int x;\n".toList =
      { success := true, error := none, written := some "int x;\n".toList } :=
  ⟨(patch_missing_amended "int x;\n".toList "    return true;".toList []
      (by decide)).1 rfl,
   (patch_missing_amended "int x;\n".toList "    return true;".toList
      "#include \"/lib/a.h\"".toList (by decide)).2 (by decide)⟩

/-! ## C10: global substitution over the whole content -/

theorem subAllAux_fuel (code : List Char) :
    ∀ (n : Nat) (s : List Char) (fuel : Nat), s.length ≤ n → s.length ≤ fuel →
      subAllAux code fuel s = subAllAux code s.length s := by
  intro n
  induction n with
  | zero =>
    intro s fuel hn _
    have hs : s = [] := List.length_eq_zero.1 (by omega)
    subst hs
    cases fuel <;> rfl
  | succ n ih =>
    intro s fuel hn hf
    cases s with
    | nil => cases fuel <;> rfl
    | cons c rest =>
      cases fuel with
      | zero => simp at hf
      | succ f =>
        simp only [List.length_cons] at hn hf ⊢
        simp only [subAllAux]
        cases hp : placeholderAt (c :: rest) with
        | some t =>
          obtain ⟨g1, g2, after⟩ := t
          have hlt : after.length < rest.length + 1 := by
            simpa using placeholderAt_rest_length hp
          dsimp only
          rw [ih after f (by omega) (by omega),
            ih after rest.length (by omega) (by omega)]
        | none =>
          dsimp only
          rw [ih rest f (by omega) (by omega),
            ih rest rest.length (by omega) le_rfl]

/-- Scanning a segment in which no match starts copies it verbatim and
continues on the rest with the leftover fuel. -/
theorem subAllAux_scan_free (code : List Char) :
    ∀ (A rest : List Char) (fuel : Nat),
      (∀ i, i < A.length → placeholderAt (A.drop i ++ rest) = none) →
      subAllAux code (A.length + fuel) (A ++ rest) = A ++ subAllAux code fuel rest := by
  intro A
  induction A with
  | nil => intro rest fuel _; simp
  | cons c A₀ ih =>
    intro rest fuel h
    have h0 : placeholderAt (c :: (A₀ ++ rest)) = none := by
      have := h 0 (by simp)
      simpa using this
    have hstep : (c :: A₀).length + fuel = (A₀.length + fuel) + 1 := by
      simp only [List.length_cons]
      omega
    rw [hstep]
    show subAllAux code ((A₀.length + fuel) + 1) (c :: (A₀ ++ rest)) = _
    simp only [subAllAux]
    rw [h0]
    have ih₁ := ih rest fuel (fun i hi => by
      have := h (i + 1) (by simp only [List.length_cons]; omega)
      simpa [List.drop_succ_cons] using this)
    rw [ih₁]
    simp

/-- With an empty include list and a substitution that changes the text, the
patch writes the substituted content and reports success. -/
theorem update_core_empty_includes (code content : List Char)
    (hne : subAll code content ≠ content) :
    update_server_factory_init_core code [] content =
      { success := true, error := none, written := some (subAll code content) } := by
  unfold update_server_factory_init_core
  simp [hne]

/-- Scanning a placeholder occurrence emits its replacement and continues on
the rest of the content. -/
theorem subAllAux_match (code : List Char) {M rest g1 g2 : List Char}
    (h : placeholderAt (M ++ rest) = some (g1, g2, rest)) :
    subAllAux code (M ++ rest).length (M ++ rest) =
      g1 ++ '\n' :: code ++ g2 ++ subAllAux code rest.length rest := by
  cases M with
  | nil =>
    exfalso
    simp only [List.nil_append] at h
    have := placeholderAt_rest_length h
    omega
  | cons c M₀ =>
    show subAllAux code ((c :: (M₀ ++ rest)).length) (c :: (M₀ ++ rest)) = _
    simp only [List.length_cons, subAllAux]
    have h₁ : placeholderAt (c :: (M₀ ++ rest)) = some (g1, g2, rest) := by
      simpa using h
    rw [h₁]
    dsimp only
    rw [subAllAux_fuel code rest.length rest (M₀ ++ rest).length le_rfl (by
      simp only [List.length_append]
      omega)]

set_option maxRecDepth 8000 in
/-- C10: the substitution is applied globally over the whole content: for
every content decomposed as `A ++ M1 ++ B ++ M2 ++ C` where `M1` and `M2`
are placeholder occurrences (matched spans) and no match starts inside `A`
or `B`, the scan replaces both occurrences — not only the first — and
continues over `C` (replacing any further occurrences there); consequently,
whenever the substitution changes the text, the patch operation writes the
content with every occurrence replaced by the registration body. -/
theorem patch_replaces_all_occurrences
    (code A M1 B M2 C g1 g2 g3 g4 : List Char)
    (hA : ∀ i, i < A.length →
      placeholderAt (A.drop i ++ (M1 ++ (B ++ (M2 ++ C)))) = none)
    (hM1 : placeholderAt (M1 ++ (B ++ (M2 ++ C))) = some (g1, g2, B ++ (M2 ++ C)))
    (hB : ∀ i, i < B.length → placeholderAt (B.drop i ++ (M2 ++ C)) = none)
    (hM2 : placeholderAt (M2 ++ C) = some (g3, g4, C)) :
    subAll code (A ++ (M1 ++ (B ++ (M2 ++ C)))) =
      A ++ (g1 ++ '\n' :: code ++ g2 ++
        (B ++ (g3 ++ '\n' :: code ++ g4 ++ subAll code C))) ∧
    (subAll code (A ++ (M1 ++ (B ++ (M2 ++ C)))) ≠ A ++ (M1 ++ (B ++ (M2 ++ C))) →
      update_server_factory_init_core code [] (A ++ (M1 ++ (B ++ (M2 ++ C)))) =
        { success := true, error := none,
          written := some (A ++ (g1 ++ '\n' :: code ++ g2 ++
            (B ++ (g3 ++ '\n' :: code ++ g4 ++ subAll code C)))) }) := by
  have hsub : subAll code (A ++ (M1 ++ (B ++ (M2 ++ C)))) =
      A ++ (g1 ++ '\n' :: code ++ g2 ++
        (B ++ (g3 ++ '\n' :: code ++ g4 ++ subAll code C))) := by
    unfold subAll
    rw [show (A ++ (M1 ++ (B ++ (M2 ++ C)))).length =
        A.length + (M1 ++ (B ++ (M2 ++ C))).length from by simp]
    rw [subAllAux_scan_free code A (M1 ++ (B ++ (M2 ++ C))) _ hA]
    rw [subAllAux_match code hM1]
    rw [show (B ++ (M2 ++ C)).length = B.length + (M2 ++ C).length from by simp]
    rw [subAllAux_scan_free code B (M2 ++ C) _ hB]
    rw [subAllAux_match code hM2]
  refine ⟨hsub, fun hne => ?_⟩
  rw [update_core_empty_includes code _ hne, hsub]

set_option maxRecDepth 8000 in
/-- Witness for C10 at a concrete content with exactly two placeholder
occurrences and the registration code generated for one record. -/
theorem patch_replaces_all_occurrences_witness :
    update_server_factory_init_core
        (generate_registration_code
          [⟨"Door".toList, "cfg".toList, "/lib/d.h".toList⟩])
        []
        ("inline Bool Init() \x7b\n    return false;\n\x7d\nvoid other();\ninline Bool Init() \x7b\n    return false;\n\x7d\n").toList =
      { success := true, error := none,
        written := some
          ("inline Bool Init() \x7b\n    ServerProvider::RegisterServer<Door>(\"cfg\");\n    return true;\n\x7d\nvoid other();\ninline Bool Init() \x7b\n    ServerProvider::RegisterServer<Door>(\"cfg\");\n    return true;\n\x7d\n").toList } :=
  ((patch_replaces_all_occurrences
      (generate_registration_code
        [⟨"Door".toList, "cfg".toList, "/lib/d.h".toList⟩])
      []
      "inline Bool Init() \x7b\n    return false;\n\x7d".toList
      "\nvoid other();\n".toList
      "inline Bool Init() \x7b\n    return false;\n\x7d".toList
      "\n".toList
      "inline Bool Init() \x7b".toList "\n\x7d".toList
      "inline Bool Init() \x7b".toList "\n\x7d".toList
      (by decide) (by decide) (by decide) (by decide)).2
    (by decide)).trans (by decide)

/-! ## C8: the include-insertion anchor rule -/

/-- The code's insertion-position computation factored into the three anchor
cases: (a) after the newline following the last `#include` occurrence,
advancing past whitespace characters up to the placeholder start; (b)
failing that, after the newline following the `*/` closing the last `/**`
doc comment, advancing likewise; (c) failing both, the placeholder start
itself. -/
def codeAnchorPos (content : List Char) (initStart : Nat) : Nat :=
  match pyRfind "#include".toList content initStart with
  | some lastInc =>
    skipBlank content initStart
      (match pyFindFrom ['\n'] content lastInc with
       | some k => k + 1
       | none => 0)
  | none =>
    match pyRfind "/**".toList content initStart with
    | some lastCom =>
      skipBlank content initStart
        (match pyFindFrom ['\n'] content
            (match pyFindFrom ['*', '/'] content lastCom with
             | some k => k + 2
             | none => 1) with
         | some k => k + 1
         | none => 0)
    | none => initStart

/-- Position of the start of the line following position `p` (one past the
next newline; end of content when there is none). -/
def lineStartAfterPos (content : List Char) (p : Nat) : Nat :=
  match pyFindFrom ['\n'] content p with
  | some k => k + 1
  | none => content.length

/-- Advance whole blank lines (lines whose body is empty or all whitespace),
line by line. -/
def skipBlankLinesAux (content : List Char) : Nat → Nat → Nat
  | 0, pos => pos
  | fuel + 1, pos =>
    match pyFindFrom ['\n'] content pos with
    | some k =>
      if ((content.drop pos).take (k - pos)).all isPySpace then
        skipBlankLinesAux content fuel (k + 1)
      else pos
    | none => pos

/-- Skip the blank lines starting at `pos`. -/
def skipBlankLines (content : List Char) (pos : Nat) : Nat :=
  skipBlankLinesAux content content.length pos

/-- The anchor-point rule as the claim words it: (a) immediately after the
last pre-existing include directive (its line), skipping any blank lines
that follow it; (b) failing that, immediately after the end of the last
block comment; (c) failing both, immediately before the placeholder. -/
def claimInsertPos (content : List Char) (initStart : Nat) : Nat :=
  match pyRfind "#include".toList content initStart with
  | some lastInc => skipBlankLines content (lineStartAfterPos content lastInc)
  | none =>
    match pyRfind ['/', '*'] content initStart with
    | some lastCom =>
      match pyFindFrom ['*', '/'] content lastCom with
      | some k => k + 2
      | none => initStart
    | none => initStart

set_option maxRecDepth 8000 in
/-- C8 counterexample: two contents on which the code's insertion position
differs from the claim's anchor rule.  First, after the last include the
code advances past whitespace characters, passing the indentation of the
next non-blank line instead of stopping after the blank lines.  Second, the
code's comment anchor requires a `/**` opener, so a plain `/* ... */` block
comment is not an anchor and insertion falls through to the placeholder. -/
theorem patch_insert_anchor_counterexample :
    (placeholderSearchPos
        "#include \"a.h\"\n\n  int q;\ninline Bool Init() \x7b\nreturn false;\n\x7d\n".toList =
      some 25 ∧
     claimInsertPos
        "#include \"a.h\"\n\n  int q;\ninline Bool Init() \x7b\nreturn false;\n\x7d\n".toList 25 = 16 ∧
     (update_server_factory_init_core "    return true;".toList "#include \"/x.h\"".toList
        "#include \"a.h\"\n\n  int q;\ninline Bool Init() \x7b\nreturn false;\n\x7d\n".toList).written =
       some (subAll "    return true;".toList
         (insertNN "#include \"a.h\"\n\n  int q;\ninline Bool Init() \x7b\nreturn false;\n\x7d\n".toList
           "#include \"/x.h\"".toList 18)) ∧
     subAll "    return true;".toList
         (insertNN "#include \"a.h\"\n\n  int q;\ninline Bool Init() \x7b\nreturn false;\n\x7d\n".toList
           "#include \"/x.h\"".toList 18) ≠
       subAll "    return true;".toList
         (insertNN "#include \"a.h\"\n\n  int q;\ninline Bool Init() \x7b\nreturn false;\n\x7d\n".toList
           "#include \"/x.h\"".toList 16)) ∧
    (placeholderSearchPos
        "/* hdr */\nint q;\ninline Bool Init() \x7b\nreturn false;\n\x7d\n".toList = some 17 ∧
     claimInsertPos
        "/* hdr */\nint q;\ninline Bool Init() \x7b\nreturn false;\n\x7d\n".toList 17 = 9 ∧
     (update_server_factory_init_core "    return true;".toList "#include \"/x.h\"".toList
        "/* hdr */\nint q;\ninline Bool Init() \x7b\nreturn false;\n\x7d\n".toList).written =
       some (subAll "    return true;".toList
         (insertNN "/* hdr */\nint q;\ninline Bool Init() \x7b\nreturn false;\n\x7d\n".toList
           "#include \"/x.h\"".toList 17)) ∧
     subAll "    return true;".toList
         (insertNN "/* hdr */\nint q;\ninline Bool Init() \x7b\nreturn false;\n\x7d\n".toList
           "#include \"/x.h\"".toList 17) ≠
       subAll "    return true;".toList
         (insertNN "/* hdr */\nint q;\ninline Bool Init() \x7b\nreturn false;\n\x7d\n".toList
           "#include \"/x.h\"".toList 9)) := by
  decide

/-- C8 amended: when the include list is non-empty and the placeholder is
found, the includes (followed by a blank line) are inserted at the position
given by `codeAnchorPos`: (a) after the newline following the last
`#include` occurrence before the placeholder, advancing past whitespace
characters (which may include the next line's indentation) up to the
placeholder start; (b) failing that, after the newline following the `*/`
that closes the last `/**` doc comment, advancing likewise; (c) failing
both, immediately before the placeholder; the placeholder substitution is
then applied to the resulting content. -/
theorem patch_insert_anchor (content code inc : List Char) (initStart : Nat)
    (hinc : inc ≠ []) (hpos : placeholderSearchPos content = some initStart) :
    update_server_factory_init_core code inc content =
      { success := true, error := none,
        written := some
          (subAll code (insertNN content inc (codeAnchorPos content initStart))) } := by
  unfold update_server_factory_init_core codeAnchorPos
  simp only [hpos, hinc, ne_eq, not_false_eq_true, if_true]
  cases hri : pyRfind "#include".toList content initStart with
  | some lastInc => simp [hinc]
  | none =>
    cases hrc : pyRfind ['/', '*', '*'] content initStart with
    | some lastCom => simp [hri, hrc]
    | none => simp [hri, hrc]

set_option maxRecDepth 8000 in
/-- Witness for the amended C8 at the concrete include-anchored content. -/
theorem patch_insert_anchor_witness :
    update_server_factory_init_core "    return true;".toList "#include \"/x.h\"".toList
        "#include \"a.h\"\n\n  int q;\ninline Bool Init() \x7b\nreturn false;\n\x7d\n".toList =
      { success := true, error := none,
        written := some
          (subAll "    return true;".toList
            (insertNN
              "#include \"a.h\"\n\n  int q;\ninline Bool Init() \x7b\nreturn false;\n\x7d\n".toList
              "#include \"/x.h\"".toList
              (codeAnchorPos
                "#include \"a.h\"\n\n  int q;\ninline Bool Init() \x7b\nreturn false;\n\x7d\n".toList
                25))) } :=
  patch_insert_anchor
    "#include \"a.h\"\n\n  int q;\ninline Bool Init() \x7b\nreturn false;\n\x7d\n".toList
    "    return true;".toList "#include \"/x.h\"".toList 25
    (by decide) (by decide)
